import Mathlib

/-!
Verification of the coercion/validation combinator algebra of `xoutil.cl`
(file `src/xoutil/cl/__init__.py`).

The algebra works on ordinary Python values; we embed the fragment of the
Python value domain that the coercers manipulate as the inductive type `V`:
integers, floats (modelled as exact rationals, which is faithful for the
decimal literals exercised here), strings, tuples and lists.  Strings are
treated as atomic scalars: no claim exercises their character-sequence
behaviour, so `V.vstr` is not iterable in this embedding.  Sets, dicts,
complex numbers and arbitrary objects are outside the modelled fragment.

Success/failure of a coercer is embedded as `Option V`: `some v` is a
coerced value, `none` is the Common-Lisp-style `nil` sentinel.  The test
`t(res)` of the source is exactly `res ≠ nil`, i.e. `Option.isSome` here,
because `logical.__call__` maps every non-`nil` value (including falsy
ones such as `0` and `""`) to a true value.
-/

namespace XoutilCL

/-- Python values of the modelled fragment (see the file header). -/
inductive V where
  | vint (n : ℤ)
  | vfloat (q : ℚ)
  | vstr (s : String)
  | vtup (l : List V)
  | vlist (l : List V)

mutual

/-- Decidable equality on `V` (the `deriving` handler does not support
the nested `List V` occurrence, so it is spelled out). -/
def vDecEq : (a b : V) → Decidable (a = b)
  | V.vint x, V.vint y =>
    match decEq x y with
    | isTrue h => isTrue (congrArg V.vint h)
    | isFalse h => isFalse fun hh => h (V.vint.inj hh)
  | V.vint _, V.vfloat _ => isFalse fun h => V.noConfusion h
  | V.vint _, V.vstr _ => isFalse fun h => V.noConfusion h
  | V.vint _, V.vtup _ => isFalse fun h => V.noConfusion h
  | V.vint _, V.vlist _ => isFalse fun h => V.noConfusion h
  | V.vfloat _, V.vint _ => isFalse fun h => V.noConfusion h
  | V.vfloat x, V.vfloat y =>
    match decEq x y with
    | isTrue h => isTrue (congrArg V.vfloat h)
    | isFalse h => isFalse fun hh => h (V.vfloat.inj hh)
  | V.vfloat _, V.vstr _ => isFalse fun h => V.noConfusion h
  | V.vfloat _, V.vtup _ => isFalse fun h => V.noConfusion h
  | V.vfloat _, V.vlist _ => isFalse fun h => V.noConfusion h
  | V.vstr _, V.vint _ => isFalse fun h => V.noConfusion h
  | V.vstr _, V.vfloat _ => isFalse fun h => V.noConfusion h
  | V.vstr x, V.vstr y =>
    match decEq x y with
    | isTrue h => isTrue (congrArg V.vstr h)
    | isFalse h => isFalse fun hh => h (V.vstr.inj hh)
  | V.vstr _, V.vtup _ => isFalse fun h => V.noConfusion h
  | V.vstr _, V.vlist _ => isFalse fun h => V.noConfusion h
  | V.vtup _, V.vint _ => isFalse fun h => V.noConfusion h
  | V.vtup _, V.vfloat _ => isFalse fun h => V.noConfusion h
  | V.vtup _, V.vstr _ => isFalse fun h => V.noConfusion h
  | V.vtup xs, V.vtup ys =>
    match vDecEqList xs ys with
    | isTrue h => isTrue (congrArg V.vtup h)
    | isFalse h => isFalse fun hh => h (V.vtup.inj hh)
  | V.vtup _, V.vlist _ => isFalse fun h => V.noConfusion h
  | V.vlist _, V.vint _ => isFalse fun h => V.noConfusion h
  | V.vlist _, V.vfloat _ => isFalse fun h => V.noConfusion h
  | V.vlist _, V.vstr _ => isFalse fun h => V.noConfusion h
  | V.vlist _, V.vtup _ => isFalse fun h => V.noConfusion h
  | V.vlist xs, V.vlist ys =>
    match vDecEqList xs ys with
    | isTrue h => isTrue (congrArg V.vlist h)
    | isFalse h => isFalse fun hh => h (V.vlist.inj hh)

/-- Decidable equality on `List V`, mutually with `vDecEq`. -/
def vDecEqList : (xs ys : List V) → Decidable (xs = ys)
  | [], [] => isTrue rfl
  | [], _ :: _ => isFalse fun h => List.noConfusion h
  | _ :: _, [] => isFalse fun h => List.noConfusion h
  | x :: xs, y :: ys =>
    match vDecEq x y, vDecEqList xs ys with
    | isTrue h1, isTrue h2 => isTrue (by rw [h1, h2])
    | isFalse h1, _ => isFalse fun h => h1 (List.cons.inj h).1
    | _, isFalse h2 => isFalse fun h => h2 (List.cons.inj h).2

end

instance : DecidableEq V := vDecEq

/-- Numeric value of a digit character. -/
def digVal (c : Char) : ℕ := c.toNat - '0'.toNat

/-- Value of a digit string read in base 10. -/
def digitsVal (l : List Char) : ℕ := l.foldl (fun a c => a * 10 + digVal c) 0

/-- Modelled from the Python builtin `float()` applied to a string, on plain
decimal literals: optional sign, integer digits, optional `.` and
fractional digits (at least one digit overall).  The `float()` builtin is
part of the Python runtime, not of this repository. -/
def parseFloat (s : String) : Option ℚ :=
  let cs := s.toList
  let signed : Bool × List Char :=
    match cs with
    | '-' :: rest => (true, rest)
    | '+' :: rest => (false, rest)
    | other => (false, other)
  let ip := signed.2.takeWhile Char.isDigit
  let rest := signed.2.dropWhile Char.isDigit
  let core : Option (ℤ × ℕ) :=
    match rest with
    | [] => if ip.isEmpty then none else some ((digitsVal ip : ℤ), 1)
    | '.' :: fp =>
      if fp.all Char.isDigit && !(ip.isEmpty && fp.isEmpty) then
        some ((digitsVal ip * 10 ^ fp.length + digitsVal fp : ℕ), 10 ^ fp.length)
      else none
    | _ => none
  core.map (fun p => mkRat (if signed.1 then -p.1 else p.1) p.2)

/-- Embedding of `float_coerce`: a float is returned unchanged, an integer
is widened, a string is parsed with `float()` (failure gives `nil`), and
everything else fails.  The `complex` branch of the source is outside the
modelled value fragment. -/
def float_coerce (arg : V) : Option V :=
  match arg with
  | V.vfloat q => some (V.vfloat q)
  | V.vint n => some (V.vfloat (n : ℚ))
  | V.vstr s => (parseFloat s).map V.vfloat
  | _ => none

/-- The Python builtin `int()` on a float: truncation toward zero. -/
def pyTrunc (q : ℚ) : ℤ :=
  let m : ℕ := q.num.natAbs / q.den
  if 0 ≤ q.num then (m : ℤ) else -(m : ℤ)

/-- Difference `q - n` of a rational and an integer, spelled with `mkRat`
so that it evaluates inside the kernel (the Mathlib `Rat.sub` does not);
`ratSubInt_eq` below proves it is the ordinary subtraction. -/
def ratSubInt (q : ℚ) (n : ℤ) : ℚ := mkRat (q.num - n * (q.den : ℤ)) q.den

/-- Embedding of `int_coerce`: integers pass through; otherwise the value
is float-coerced and accepted only when it is integral
(`arg - int(arg) == 0` in the source). -/
def int_coerce (arg : V) : Option V :=
  match arg with
  | V.vint n => some (V.vint n)
  | _ =>
    match float_coerce arg with
    | some (V.vfloat q) =>
      let res := pyTrunc q
      if ratSubInt q res = 0 then some (V.vint res) else none
    | _ => none

/-- The Python `>= 0` comparison on the values `int_coerce` can return.
`int_coerce` only ever succeeds with an integer, so the other branches are
unreachable there. -/
def pyGeZero : V → Bool
  | V.vint n => decide (0 ≤ n)
  | V.vfloat q => decide (0 ≤ q)
  | _ => false

/-- Embedding of `positive_int_coerce`:
`res if res is nil or res >= 0 else nil` after `res = int_coerce(arg)`. -/
def positive_int_coerce (arg : V) : Option V :=
  match int_coerce arg with
  | none => none
  | some res => if pyGeZero res then some res else none

/-- Characters allowed after the first one by the identifier regex
`(?i)^[_a-z][\w]*$` (so `[a-zA-Z0-9_]`). -/
def isIdentChar (c : Char) : Bool := c.isAlphanum || c == '_'

/-- Match of the anchored identifier regex `(?i)^[_a-z][\w]*$`. -/
def isIdentifier (s : String) : Bool :=
  match s.toList with
  | [] => false
  | c :: rest => (c.isAlpha || c == '_') && rest.all isIdentChar

/-- Embedding of `identifier_coerce`: a string matching the identifier
regex is returned (for a `str`, `str(arg)` is the argument itself);
anything else gives `nil`. -/
def identifier_coerce (arg : V) : Option V :=
  match arg with
  | V.vstr s => if isIdentifier s then some (V.vstr s) else none
  | _ => none

/-- Model of the Python `hash()` builtin on the fragment.  Small integers hash to
themselves and an integral float hashes like the corresponding integer,
as in CPython (the CPython quirk `hash(-1) == -2` is not exercised by any
claim).  String hashes are randomized in CPython and distinct from small
integer hashes; we model them with a fixed injective-enough formula that
is disjoint from small integers.  Lists are unhashable in Python (calling
`hash` on them raises) and tuples are never hashed by any claim, so both
get a dummy value here. -/
def pyHash : V → ℤ
  | V.vint n => n
  | V.vfloat q => if q.den = 1 then q.num else 2305843009213693951 * q.num + (q.den : ℤ)
  | V.vstr s => 1000003 + (s.toList.foldl (fun a c => a * 31 + c.toNat) 7 : ℕ)
  | V.vtup _ => 0
  | V.vlist _ => 0

mutual

/-- Model of the Python `==` comparison on the fragment: numeric values compare across
`int`/`float`, strings compare by content, containers compare
structurally within the same concrete type. -/
def pyEq : V → V → Bool
  | V.vint a, V.vint b => a == b
  | V.vint a, V.vfloat q => (a : ℚ) == q
  | V.vfloat q, V.vint a => q == (a : ℚ)
  | V.vfloat a, V.vfloat b => a == b
  | V.vstr a, V.vstr b => a == b
  | V.vtup xs, V.vtup ys => pyEqList xs ys
  | V.vlist xs, V.vlist ys => pyEqList xs ys
  | _, _ => false

/-- Elementwise `pyEq` on lists of equal length. -/
def pyEqList : List V → List V → Bool
  | [], [] => true
  | x :: xs, y :: ys => pyEq x y && pyEqList xs ys
  | _, _ => false

end

/-- The Python `in` test against a container snapshot (membership by `==`). -/
def pyMem (x : V) (container : List V) : Bool := container.any (fun y => pyEq x y)

/-- Embedding of the closure built by `create_unique_member_coerce`:
`res = coerce(arg); if t(res) and hash(res) != hash(arg) and res in
container: res = nil; return res`.  The hash function is a parameter so
the theorems can name it explicitly. -/
def unique_member_inner (hash : V → ℤ) (coerce : V → Option V)
    (container : List V) (arg : V) : Option V :=
  match coerce arg with
  | some res => if hash res != hash arg && pyMem res container then none else some res
  | none => none

/-- Embedding of `sized_coerce` on the fragment: tuples and lists are both
`Iterable` and `Sized` and are returned unchanged; the remaining modelled
values are not iterable (see the header for strings) and give `nil`.
Unsized iterables (generators), which the source materializes with
`list(arg)`, are outside the fragment. -/
def sized_coerce (arg : V) : Option V :=
  match arg with
  | V.vtup l => some (V.vtup l)
  | V.vlist l => some (V.vlist l)
  | _ => none

/-- The Python `tuple(arg)` conversion / iterability test on the fragment: tuples and
lists enumerate their members, everything else raises (is not iterable).
`none` here stands for that `TypeError`. -/
def pyIterToList : V → Option (List V)
  | V.vtup l => some l
  | V.vlist l => some l
  | _ => none

/-- Structural equality on `V`, used to model the Python object-identity
test `x is y` on this fragment: the member coercers exercised here
(`int_coerce`, `identifier_coerce`) return the argument object itself
whenever they leave the value unchanged, and a structurally different
value is always a different object, so `is` and structural equality agree
on every execution the claims touch. -/
def vIs (a b : V) : Bool := decide (a = b)

/-- Exit state of the member loop shared by `iterable.__call__` (and, for
its value part, `pargs.__call__`): `ok` is whether the loop ended without
a member failing, `buf` the buffer contents at exit, `copied` whether the
buffer was ever copied away from the original object of the caller
(`res = list(res)` in the source), `retyped`/`modif` the homonymous
source flags, and `failItem` the member recorded in `scope` on failure. -/
structure LoopOut where
  ok : Bool
  buf : List V
  copied : Bool
  retyped : Bool
  modif : Bool
  failItem : Option V

/-- Embedding of the member loop of `iterable.__call__` (source lines
1047-1060), with the index-into-buffer iteration of the source rendered
as the processed prefix `done` (in reverse order, writes applied) and the
unprocessed suffix `rest`; the buffer contents at any point are
`done.reverse ++ rest`.  When a member changes (`new is not item`) and
the buffer is not mutable it is first copied (`res = list(res)`), after
which writes go to the copy.  `mutb` is the `mutable` flag of the
source; `copied` tracks whether the buffer is still the object of the caller. -/
def iterLoopGo (mc : V → Option V) (mutb copied retyped modif : Bool)
    (done rest : List V) : LoopOut :=
  match rest with
  | [] => ⟨true, done.reverse, copied, retyped, modif, none⟩
  | item :: rest' =>
    match mc item with
    | some new =>
      if vIs new item then
        iterLoopGo mc mutb copied retyped modif (item :: done) rest'
      else if mutb then
        iterLoopGo mc mutb copied retyped true (new :: done) rest'
      else
        iterLoopGo mc true true true true (new :: done) rest'
    | none => ⟨false, done.reverse ++ (item :: rest'), copied, retyped, modif, some item⟩

/-- The member loop started on a whole buffer (`i = 0` in the source). -/
def iterLoop (mc : V → Option V) (mutb : Bool) (buf : List V) : LoopOut :=
  iterLoopGo mc mutb false false false [] buf

/-- Embedding of `iterable.__call__` with the default outer coercer
(`outer_coerce=True` composes to `sized_coerce` alone, since
`compose` drops `identity_coerce` and unwraps singleton compositions).
The result pairs the returned value with the contents, after the call,
of the *argument object of the caller*: a mutable list is aliased by the loop
buffer and receives the in-place writes, a tuple is copied before the
first write and stays intact.  On success the source rebuilds
`type(arg)(res)` when `retyped` is set; for both tuples and lists that
rebuild yields exactly the buffer contents, which the embedding returns
directly.  The `Set` branch of the source is outside the modelled
fragment (no sets in `V`). -/
def iterable_call (mc : V → Option V) (arg : V) : Option V × V :=
  match arg with
  | V.vlist l =>
    let out := iterLoop mc true l
    let origAfter := V.vlist (if out.copied then l else out.buf)
    if out.ok then (some (V.vlist out.buf), origAfter) else (none, origAfter)
  | V.vtup l =>
    let out := iterLoop mc false l
    let origAfter := V.vtup (if out.copied then l else out.buf)
    if out.ok then (some (V.vtup out.buf), origAfter) else (none, origAfter)
  | other => (none, other)

/-- Value part of the elementwise loop of `pargs.__call__` (source lines
960-974): each member is coerced in order, failing fast; the copy-on-write
upgrade in the source of the backing tuple to a list only affects
aliasing, never the values, so the loop is embedded directly as a
fail-fast traversal. -/
def pargsLoop (coerce : V → Option V) : List V → Option (List V)
  | [] => some []
  | x :: xs =>
    match coerce x with
    | some y => (pargsLoop coerce xs).map (fun l => y :: l)
    | none => none

/-- Embedding of `pargs.__call__`: a non-iterable argument fails; a
1-element tuple whose element coerces is returned as that 1-tuple; a
1-element tuple whose element fails but is itself iterable is unpacked
and used as the true argument list; otherwise the members are coerced
elementwise and, on success, returned as a tuple. -/
def pargs_call (coerce : V → Option V) (arg : V) : Option V :=
  match pyIterToList arg with
  | none => none
  | some l =>
    match l with
    | [item] =>
      match coerce item with
      | some aux => some (V.vtup [aux])
      | none =>
        match pyIterToList item with
        | some l2 => (pargsLoop coerce l2).map V.vtup
        | none => none
    | _ => (pargsLoop coerce l).map V.vtup

/-- Embedding of the lockstep loop of `combo.__call__` (source lines
845-862): coercer `i` is applied to item `i`; the loop stops successfully
when either sequence runs out (truncation) and fails at the first
pairwise failure, recording `(item, coercer)` in `scope`.  The second
component is the `scope` update (`none` when untouched). -/
def comboLoop (cs : List (V → Option V)) (xs : List V) :
    Option (List V) × Option (V × (V → Option V)) :=
  match cs, xs with
  | [], _ => (some [], none)
  | _ :: _, [] => (some [], none)
  | c :: cs, x :: xs =>
    match c x with
    | some v =>
      let r := comboLoop cs xs
      (r.1.map (fun l => v :: l), r.2)
    | none => (none, some (x, c))

/-- Rebuild `type(arg)(res)` for the modelled iterables. -/
def reconstruct (orig : V) (l : List V) : V :=
  match orig with
  | V.vlist _ => V.vlist l
  | _ => V.vtup l

/-- Embedding of `combo.__call__`: non-iterable input fails, otherwise
the lockstep loop runs and on success the original concrete container
type is rebuilt from the accumulated list. -/
def combo_call (cs : List (V → Option V)) (arg : V) :
    Option V × Option (V × (V → Option V)) :=
  match pyIterToList arg with
  | none => (none, none)
  | some xs =>
    let r := comboLoop cs xs
    match r.1 with
    | some l => (some (reconstruct arg l), r.2)
    | none => (none, r.2)

/-- Independent statement of the lockstep contract, written from the
words of the spec: apply coercer `i` to item `i`, truncate to the shorter
sequence, fail when any pair fails. -/
def comboSpec (cs : List (V → Option V)) (xs : List V) : Option (List V) :=
  (List.zipWith (fun c x => c x) cs xs).foldr
    (fun o acc => o.bind (fun v => acc.map (fun l => v :: l))) (some [])

/-- Python exceptions surfacing in the claims.  `TypeError` is what the
source raises; `CoercionError` is the error class the spec posits for
`vouch`/`assert_coerced` (no such class exists in the source). -/
inductive PyErr where
  | typeError (msg : String)
  | coercionError (msg : String)
deriving DecidableEq

/-- Decidable equality for `Except` results (not provided by core). -/
def exceptDecEq {ε α : Type} [DecidableEq ε] [DecidableEq α] :
    (a b : Except ε α) → Decidable (a = b)
  | Except.ok x, Except.ok y =>
    match decEq x y with
    | isTrue h => isTrue (congrArg Except.ok h)
    | isFalse h => isFalse fun hh => h (Except.ok.inj hh)
  | Except.error x, Except.error y =>
    match decEq x y with
    | isTrue h => isTrue (congrArg Except.error h)
    | isFalse h => isFalse fun hh => h (Except.error.inj hh)
  | Except.ok _, Except.error _ => isFalse fun hh => Except.noConfusion hh
  | Except.error _, Except.ok _ => isFalse fun hh => Except.noConfusion hh

instance {ε α : Type} [DecidableEq ε] [DecidableEq α] : DecidableEq (Except ε α) :=
  exceptDecEq

/-- Embedding of `coercer_name` on a named scalar coercer: the
conventional `_coerce` suffix is stripped (`endswith` plus slicing in the
source, spelled on character lists here so it evaluates in the kernel).
The collection/`join` behaviour of the source is not exercised by any
claim. -/
def coercer_name (name : String) : String :=
  if List.isSuffixOf "_coerce".toList name.toList then
    String.mk (name.toList.take (name.toList.length - 7))
  else name

/-- The failure message `vouch` actually formats (source lines 127-128):
a double-quoted `NAME`, then ` fails with when called with: `, then the
parenthesised `ARGS`, with `NAME` produced by
`coercer_name` and `ARGS` by `xoutil.tools.both_args_repr` (outside
`src/`, passed in here as an opaque rendered string). -/
def vouch_msg (name argsRepr : String) : String :=
  "\"" ++ name ++ "\" fails with when called with: (" ++ argsRepr ++ ")"

/-- Modelled from the spec: the message shape the spec asserts for
`assert_coerced`/`vouch`, namely `<name> fails with arguments: <repr>`. -/
def spec_vouch_msg (name argsRepr : String) : String :=
  name ++ " fails with arguments: " ++ argsRepr

/-- Embedding of `vouch(fn, *args)` in the called-with-arguments form:
the wrapped callable is applied, a non-`nil` result is returned, and a
`nil` result raises `TypeError` with the message of `vouch_msg`.  `fname`
is the `__name__` of the callable; the `nil`-as-only-argument sugar of
the source is about passing the `nil` singleton itself, which is not a
value of the modelled fragment. -/
def vouch_call (fname : String) (f : List V → Option V) (args : List V)
    (argsRepr : String) : Except PyErr V :=
  match f args with
  | some res => Except.ok res
  | none => Except.error (PyErr.typeError (vouch_msg (coercer_name fname) argsRepr))

/-- Embedding of `names_coerce`: a string is wrapped in a 1-tuple, any
other value is passed to `tuple(...)` — which *raises* `TypeError` when
the value is not iterable — and the resulting tuple is checked with
`iterable(identifier_coerce)`.  The `Except` layer records that raise. -/
def names_coerce (arg : V) : Except PyErr (Option V) :=
  match arg with
  | V.vstr s => Except.ok (iterable_call identifier_coerce (V.vtup [V.vstr s])).1
  | _ =>
    match pyIterToList arg with
    | some l => Except.ok (iterable_call identifier_coerce (V.vtup l)).1
    | none => Except.error (PyErr.typeError "object is not iterable")

/-- Coercer objects of the algebra, as far as the Boolean combinators
see them: plain function-coercers, the two distinguished singletons
`identity_coerce` and `void_coerce` (the construction-time filters of
`compose`/`some` compare against them with `is`), and the two composite
variants built by `compose.__new__` and `some.__new__`.  The structural
variants (`combo`, `pargs`, `iterable`, `mapping`) are embedded
separately above as functions, since no claim nests them inside a
Boolean combinator. -/
inductive C where
  | prim (f : V → Option V)
  | idc
  | voidc
  | composeC (inner : List C)
  | someC (inner : List C)

/-- Identity test against the `identity_coerce` singleton
(`c is not identity_coerce` in `compose.__new__`). -/
def C.isId : C → Bool
  | C.idc => true
  | _ => false

/-- Identity test against the `void_coerce` singleton
(`c is not void_coerce` in `some.__new__`). -/
def C.isVoid : C → Bool
  | C.voidc => true
  | _ => false

mutual

/-- Calling a coercer: `identity_coerce` returns its argument,
`void_coerce` always fails, a function-coercer applies its function, and
the composites run their loops. -/
def applyC : C → V → Option V
  | C.prim f, v => f v
  | C.idc, v => some v
  | C.voidc, _ => none
  | C.composeC inner, v => (composeRun inner v).1
  | C.someC inner, v => (someRun inner v).1

/-- Embedding of the loop of `compose.__call__` (source lines 755-769):
coercers are applied left to right, each result fed to the next; the
first failure stops the loop, records `(last-good-value, failing-coercer)`
in `scope` (second component; `none` means scope untouched) and makes the
call return `nil`. -/
def composeRun : List C → V → Option V × Option (V × C)
  | [], v => (some v, none)
  | c :: cs, v =>
    match applyC c v with
    | some r => composeRun cs r
    | none => (none, some (v, c))

/-- Embedding of the loop of `some.__call__` (source lines 795-807): the
first non-`nil` result wins and the winning coercer is recorded in
`scope` (second component); if all fail the call returns `nil`. -/
def someRun : List C → V → Option V × Option C
  | [], _ => (none, none)
  | c :: cs, v =>
    match applyC c v with
    | some r => (some r, some c)
    | none => someRun cs v

end

mutual

/-- Construction-time flattening used by `compose.__new__`, one element:
`compose.inward` maps a `compose` composite to its inner coercer tuple
(which `flatten` then breaks up recursively) and leaves any other
coercer alone as a one-element result.  The sequence-literal unnesting of
`flatten` is orthogonal to every claim (all claims construct combinators
from flat argument lists) and is not modelled. -/
def flatComposeOne : C → List C
  | C.composeC inner => flatComposeList inner
  | c => [c]

/-- Construction-time flattening used by `compose.__new__`, over the
argument list: concatenation of the flattening of each element. -/
def flatComposeList : List C → List C
  | [] => []
  | c :: rest => flatComposeOne c ++ flatComposeList rest

end

mutual

/-- Construction-time flattening used by `some.__new__`, one element:
unwraps a `some` composite into its inner coercers recursively. -/
def flatSomeOne : C → List C
  | C.someC inner => flatSomeList inner
  | c => [c]

/-- Construction-time flattening used by `some.__new__`, over the
argument list. -/
def flatSomeList : List C → List C
  | [] => []
  | c :: rest => flatSomeOne c ++ flatSomeList rest

end

/-- Arity dispatch of `compose.__new__` (source lines 741-750) after
flattening and filtering: zero survivors give the default
`identity_coerce`, one survivor is returned unchanged, two or more build
a composite. -/
def mkCompose (l : List C) : C :=
  match l with
  | [] => C.idc
  | [c] => c
  | l => C.composeC l

/-- Arity dispatch of `some.__new__` (source lines 786-793): zero
survivors give `void_coerce`, one survivor is returned unchanged, two or
more build a composite. -/
def mkSome (l : List C) : C :=
  match l with
  | [] => C.voidc
  | [c] => c
  | l => C.someC l

/-- Embedding of `compose.__new__` called without keyword options:
flatten the arguments, drop the `identity_coerce` singleton, dispatch on
the surviving arity. -/
def composeNew (cs : List C) : C :=
  mkCompose ((flatComposeList cs).filter (fun c => ! C.isId c))

/-- Embedding of `some.__new__`: flatten the arguments, drop the
`void_coerce` singleton, dispatch on the surviving arity. -/
def someNew (cs : List C) : C :=
  mkSome ((flatSomeList cs).filter (fun c => ! C.isVoid c))

/-- Statement of the call contract of `compose`, written from the words
of the spec:
apply the coercers strictly in the order given, feeding each result to
the next (a left fold), failing as soon as one fails. -/
def foldChain (cs : List C) (v : V) : Option V :=
  cs.foldl (fun acc c => acc.bind (fun x => applyC c x)) (some v)

/-- Sources accepted by the `coercer` factory, as far as the claims
exercise it: the canonical true singleton `t`, Python `None`, the
canonical false singleton `nil`, an existing coercer, a plain function,
or anything else (for which the source tries `types_tuple_coerce` — the
`istype` branch is not needed by any claim and such garbage sources make
the factory itself return `nil`). -/
inductive Src where
  | strue
  | snone
  | sfalse
  | scoercer (c : C)
  | sfunc (f : V → Option V)
  | sother

/-- Embedding of `coercer.__new__` (source lines 196-209), in the
branch order of the source: the true singleton gives `identity_coerce`;
`None` or the false singleton give `void_coerce`; an existing coercer is
returned unchanged; a plain function is wrapped as a function-coercer;
otherwise the type branch applies (not modelled; garbage gives `nil`).
That `t == 1` and `nil == 0` hold as `boolean` instances comes from
`xoutil.symbols` (outside `src/`), as the spec describes. -/
def coercer_new : Src → Option C
  | Src.strue => some C.idc
  | Src.snone => some C.voidc
  | Src.sfalse => some C.voidc
  | Src.scoercer c => some c
  | Src.sfunc f => some (C.prim f)
  | Src.sother => none

/-! Theorems. -/

/-- Faithfulness of the kernel-evaluable subtraction helper: `ratSubInt`
is ordinary subtraction of an integer from a rational. -/
theorem ratSubInt_eq (q : ℚ) (n : ℤ) : ratSubInt q n = q - n := by
  have hden : (q.den : ℚ) ≠ 0 := by
    exact_mod_cast q.den_nz
  rw [ratSubInt, Rat.mkRat_eq_div]
  push_cast
  rw [sub_div, Rat.num_div_den, mul_div_assoc, div_self hden, mul_one]

/-- Claim C2: for every value `v`, including falsy ones such as `0`, the empty
string and empty containers, the coercer the factory produces from the
canonical true singleton is `identity_coerce` and maps `v` to itself,
while the factory applied to `None` or to the canonical false singleton
produces `void_coerce`, which maps every `v` to `nil`. -/
theorem claim_C2 (v : V) :
    coercer_new Src.strue = some C.idc ∧ applyC C.idc v = some v ∧
    coercer_new Src.snone = some C.voidc ∧ coercer_new Src.sfalse = some C.voidc ∧
    applyC C.voidc v = none :=
  ⟨rfl, rfl, rfl, rfl, rfl⟩

/-- Claim C10: `positive_int_coerce` accepts zero, returns the int-coerced
value whenever integer coercion succeeds with a non-negative result, and
returns `nil` exactly for inputs coercing to a negative integer or
failing integer coercion. -/
theorem claim_C10 :
    positive_int_coerce (V.vint 0) = some (V.vint 0) ∧
    (∀ (arg : V) (n : ℤ), int_coerce arg = some (V.vint n) → 0 ≤ n →
      positive_int_coerce arg = some (V.vint n)) ∧
    (∀ (arg : V) (n : ℤ), int_coerce arg = some (V.vint n) → n < 0 →
      positive_int_coerce arg = none) ∧
    (∀ arg : V, int_coerce arg = none → positive_int_coerce arg = none) := by
  refine ⟨by decide, ?_, ?_, ?_⟩
  · intro arg n h hn
    simp [positive_int_coerce, h, pyGeZero, hn]
  · intro arg n h hn
    simp [positive_int_coerce, h, pyGeZero]
    omega
  · intro arg h
    simp [positive_int_coerce, h]

/-- Witness for C10 at concrete inputs: `"2"` coerces to a non-negative
integer and is accepted, `"-2"` coerces to a negative integer and is
rejected, `"x"` fails integer coercion and is rejected. -/
theorem claim_C10_witness :
    positive_int_coerce (V.vstr "2") = some (V.vint 2) ∧
    positive_int_coerce (V.vstr "-2") = none ∧
    positive_int_coerce (V.vstr "x") = none :=
  ⟨claim_C10.2.1 (V.vstr "2") 2 (by decide) (by decide),
   claim_C10.2.2.1 (V.vstr "-2") (-2) (by decide) (by decide),
   claim_C10.2.2.2 (V.vstr "x") (by decide)⟩

/-- Claim C8 counterexample: the claimed "the wrapper fails exactly when the
inner coercion succeeds with a result whose hash differs and is already
present" is false at `arg = "x"` over the empty container: the wrapper
fails (because the inner coercion itself fails), yet no successful inner
result exists. -/
theorem claim_C8_counterexample :
    ¬ (unique_member_inner pyHash int_coerce [] (V.vstr "x") = none ↔
       ∃ r, int_coerce (V.vstr "x") = some r ∧ pyHash r ≠ pyHash (V.vstr "x") ∧
            pyMem r [] = true) := by
  intro h
  obtain ⟨r, hr, -, -⟩ := h.mp (by decide)
  rw [show int_coerce (V.vstr "x") = none from by decide] at hr
  exact Option.noConfusion hr

/-- Claim C8 (amended): the unique-member wrapper fails exactly when the inner
coercion fails, or when it succeeds with a result whose hash differs from
the hash of the original input and that result is already present in the
reference container; in particular over a container holding `1` it
rejects `"1"` (which coerces to the colliding `1`), while over an empty
container it returns `1`. -/
theorem claim_C8 :
    (∀ (coerce : V → Option V) (container : List V) (arg : V),
       unique_member_inner pyHash coerce container arg = none ↔
         coerce arg = none ∨
         ∃ r, coerce arg = some r ∧ pyHash r ≠ pyHash arg ∧ pyMem r container = true) ∧
    unique_member_inner pyHash int_coerce [V.vint 1] (V.vstr "1") = none ∧
    unique_member_inner pyHash int_coerce [] (V.vstr "1") = some (V.vint 1) := by
  refine ⟨?_, by decide, by decide⟩
  intro coerce container arg
  cases h : coerce arg with
  | none => simp [unique_member_inner, h]
  | some r =>
    simp only [unique_member_inner, h]
    cases hb : (pyHash r != pyHash arg && pyMem r container) with
    | false =>
      rw [if_neg (by simp [hb])]
      refine iff_of_false (by simp) ?_
      intro hor
      rcases hor with hnone | ⟨r', hr', hhash, hmem⟩
      · exact Option.noConfusion hnone
      · cases Option.some.inj hr'
        have htrue : (pyHash r != pyHash arg && pyMem r container) = true := by
          rw [Bool.and_eq_true, bne_iff_ne]
          exact ⟨hhash, hmem⟩
        rw [hb] at htrue
        exact Bool.noConfusion htrue
    | true =>
      rw [if_pos (by simp [hb])]
      rw [Bool.and_eq_true, bne_iff_ne] at hb
      exact iff_of_true rfl (Or.inr ⟨r, rfl, hb.1, hb.2⟩)

/-- Claim C5 counterexample: at a concrete failing call, `vouch` raises
`TypeError` — not the `CoercionError` the claim names — and its message
reads `"void" fails with when called with: (1)`, which is not of the
form `<name> fails with arguments: <repr>` asserted by the claim. -/
theorem claim_C5_counterexample :
    vouch_call "void_coerce" (fun _ => none) [V.vint 1] "1" =
      Except.error (PyErr.typeError "\"void\" fails with when called with: (1)") ∧
    PyErr.typeError "\"void\" fails with when called with: (1)" ≠
      PyErr.coercionError (spec_vouch_msg "void" "1") ∧
    "\"void\" fails with when called with: (1)" ≠ spec_vouch_msg "void" "1" := by
  refine ⟨by decide, by decide, by decide⟩

/-- Claim C5 (amended): when `vouch` is called with arguments and the wrapped
coercer returns `nil`, it raises `TypeError` (not `CoercionError`) whose
message has the form `"<name>" fails with when called with: (<repr>)`
with the `_coerce` suffix stripped from the name; when the result is not
`nil`, `vouch` returns the coerced value. -/
theorem claim_C5 (fname : String) (f : List V → Option V) (args : List V)
    (argsRepr : String) :
    (f args = none →
      vouch_call fname f args argsRepr =
        Except.error (PyErr.typeError (vouch_msg (coercer_name fname) argsRepr))) ∧
    (∀ v, f args = some v → vouch_call fname f args argsRepr = Except.ok v) := by
  constructor
  · intro h
    simp [vouch_call, h]
  · intro v h
    simp [vouch_call, h]

/-- Witness for C5 at concrete calls of `int_coerce` through `vouch`: a
failing call raises the formatted `TypeError`, a succeeding call returns
the coerced value. -/
theorem claim_C5_witness :
    vouch_call "int_coerce" (fun args => match args with | [a] => int_coerce a | _ => none)
      [V.vstr "x"] "'x'" =
      Except.error (PyErr.typeError (vouch_msg (coercer_name "int_coerce") "'x'")) ∧
    vouch_call "int_coerce" (fun args => match args with | [a] => int_coerce a | _ => none)
      [V.vstr "5"] "'5'" = Except.ok (V.vint 5) :=
  ⟨(claim_C5 "int_coerce" _ [V.vstr "x"] "'x'").1 (by decide),
   (claim_C5 "int_coerce" _ [V.vstr "5"] "'5'").2 (V.vint 5) (by decide)⟩

/-- Claim C6: `pargs(int_coerce)` maps `(1, 2.0, "3.0")` to `(1, 2, 3)`; maps
the 1-element tuple `((1, 2.0, "3.0"),)` — whose single element fails the
member coercer but is itself iterable — to the same `(1, 2, 3)` by
unpacking it; maps a 1-element tuple holding a non-iterable invalid
element (`1.5`) to `nil`; and every successful result is a tuple. -/
theorem claim_C6 :
    pargs_call int_coerce (V.vtup [V.vint 1, V.vfloat 2, V.vstr "3.0"]) =
      some (V.vtup [V.vint 1, V.vint 2, V.vint 3]) ∧
    pargs_call int_coerce (V.vtup [V.vtup [V.vint 1, V.vfloat 2, V.vstr "3.0"]]) =
      some (V.vtup [V.vint 1, V.vint 2, V.vint 3]) ∧
    pargs_call int_coerce (V.vtup [V.vfloat (mkRat 3 2)]) = none ∧
    (∀ (coerce : V → Option V) (arg res : V),
       pargs_call coerce arg = some res → ∃ l, res = V.vtup l) := by
  refine ⟨by decide, by decide, by decide, ?_⟩
  intro coerce arg res h
  unfold pargs_call at h
  split at h
  · exact Option.noConfusion h
  · split at h
    · split at h
      · exact ⟨_, (Option.some.inj h).symm⟩
      · split at h
        · obtain ⟨l, -, hl⟩ := Option.map_eq_some'.mp h
          exact ⟨l, hl.symm⟩
        · exact Option.noConfusion h
    · obtain ⟨l, -, hl⟩ := Option.map_eq_some'.mp h
      exact ⟨l, hl.symm⟩

/-- Witness for the universally quantified part of C6 at a concrete
successful call. -/
theorem claim_C6_witness :
    ∃ l, V.vtup [V.vint 1, V.vint 2, V.vint 3] = V.vtup l :=
  claim_C6.2.2.2 int_coerce (V.vtup [V.vint 1, V.vfloat 2, V.vstr "3.0"])
    (V.vtup [V.vint 1, V.vint 2, V.vint 3]) (by decide)

/-- Claim C9: `names_coerce` applied to the integer `1` — a merely invalid,
non-iterable input — executes `tuple(1)` and so *raises* `TypeError`
instead of returning `nil`, contradicting the never-raise contract that
the own documentation of the module states for coercers; on strings and on
iterables it does return a tuple of validated identifiers or `nil`
without raising. -/
theorem claim_C9 :
    names_coerce (V.vint 1) = Except.error (PyErr.typeError "object is not iterable") ∧
    names_coerce (V.vstr "abc") = Except.ok (some (V.vtup [V.vstr "abc"])) ∧
    names_coerce (V.vtup [V.vstr "ab", V.vstr "cd"]) =
      Except.ok (some (V.vtup [V.vstr "ab", V.vstr "cd"])) ∧
    names_coerce (V.vtup [V.vstr "not an identifier"]) = Except.ok none := by
  refine ⟨rfl, ?_, ?_, ?_⟩ <;>
    simp [names_coerce, iterable_call, iterLoop, iterLoopGo, identifier_coerce,
      isIdentifier, isIdentChar, vIs, pyIterToList]

/-- Once the member-loop buffer has been copied away from the original
object, it stays copied for the rest of the loop. -/
theorem iterLoopGo_copied_mono (mc : V → Option V) :
    ∀ (rest done : List V) (mutb retyped modif : Bool),
      (iterLoopGo mc mutb true retyped modif done rest).copied = true := by
  intro rest
  induction rest with
  | nil => intro done mutb r m; rfl
  | cons item rest ih =>
    intro done mutb r m
    simp only [iterLoopGo]
    cases mc item with
    | none => rfl
    | some new =>
      cases hv : vIs new item with
      | true => simp only [hv, if_true]; exact ih _ _ _ _
      | false =>
        cases mutb <;> simp only [hv, Bool.false_eq_true, if_false, if_true] <;>
          exact ih _ _ _ _

/-- As long as the member-loop buffer has not been copied (starting from
an immutable buffer), it is exactly the original contents: no write has
happened. -/
theorem iterLoopGo_uncopied_buf (mc : V → Option V) :
    ∀ (rest done : List V) (retyped modif : Bool),
      (iterLoopGo mc false false retyped modif done rest).copied = false →
      (iterLoopGo mc false false retyped modif done rest).buf = done.reverse ++ rest := by
  intro rest
  induction rest with
  | nil => intro done r m _; simp [iterLoopGo]
  | cons item rest ih =>
    intro done r m h
    simp only [iterLoopGo] at h ⊢
    cases hmc : mc item with
    | none => simp [hmc]
    | some new =>
      cases hv : vIs new item with
      | true =>
        simp only [hmc, hv, if_true] at h ⊢
        rw [ih _ _ _ h]
        simp
      | false =>
        simp only [hmc, hv, Bool.false_eq_true, if_false] at h ⊢
        rw [iterLoopGo_copied_mono] at h
        exact Bool.noConfusion h

/-- Claim C4 counterexample: `iterable(int_coerce)` applied to the mutable
list `["1"]` leaves the argument list holding `[1]` — the input object is
mutated by the call, contradicting the claim that inputs are always left
unchanged. -/
theorem claim_C4_counterexample :
    (iterable_call int_coerce (V.vlist [V.vstr "1"])).2 ≠ V.vlist [V.vstr "1"] := by
  decide

/-- Claim C4 (amended): `iterable` never mutates an immutable (tuple)
input — after the call the tuple contents are unchanged for every member
coercer — but applied to a mutable list whose members need coercion it
writes the coerced members into the input in place and returns that
same, mutated, buffer; so the blanket "never mutates its input" contract
does not hold for mutable containers. -/
theorem claim_C4 :
    (∀ (mc : V → Option V) (l : List V), (iterable_call mc (V.vtup l)).2 = V.vtup l) ∧
    iterable_call int_coerce (V.vlist [V.vstr "1", V.vfloat 2, V.vstr "3.0"]) =
      (some (V.vlist [V.vint 1, V.vint 2, V.vint 3]),
       V.vlist [V.vint 1, V.vint 2, V.vint 3]) := by
  constructor
  · intro mc l
    simp only [iterable_call, iterLoop]
    cases hc : (iterLoopGo mc false false false false [] l).copied with
    | true =>
      cases (iterLoopGo mc false false false false [] l).ok <;> simp [hc]
    | false =>
      have hbuf := iterLoopGo_uncopied_buf mc l [] false false hc
      cases (iterLoopGo mc false false false false [] l).ok <;>
        simp [hc, hbuf]
  · decide

/-- Folding from a failed state stays failed. -/
theorem foldChain_none : ∀ cs : List C,
    cs.foldl (fun acc c => acc.bind (fun x => applyC c x)) none = none := by
  intro cs
  induction cs with
  | nil => rfl
  | cons c cs ih => simpa [List.foldl] using ih

/-- Unfolding of the spec-side chain on a cons cell. -/
theorem foldChain_cons (c : C) (cs : List C) (v : V) :
    foldChain (c :: cs) v =
      match applyC c v with
      | some r => foldChain cs r
      | none => none := by
  cases h : applyC c v with
  | some r => simp [foldChain, List.foldl, h]
  | none => simp [foldChain, List.foldl, h, foldChain_none]

/-- The value computed by the loop of `compose.__call__` is the
left-to-right chain of the spec. -/
theorem composeRun_fst : ∀ (cs : List C) (v : V),
    (composeRun cs v).1 = foldChain cs v := by
  intro cs
  induction cs with
  | nil => intro v; rfl
  | cons c cs ih =>
    intro v
    rw [foldChain_cons]
    cases h : applyC c v with
    | some r => simp only [composeRun, h]; exact ih r
    | none => simp only [composeRun, h]

/-- When every stage succeeds, the loop of `compose.__call__` returns the
chained value and leaves `scope` untouched. -/
theorem composeRun_success : ∀ (cs : List C) (v w : V),
    foldChain cs v = some w → composeRun cs v = (some w, none) := by
  intro cs
  induction cs with
  | nil =>
    intro v w h
    cases Option.some.inj h
    rfl
  | cons c cs ih =>
    intro v w h
    rw [foldChain_cons] at h
    cases hc : applyC c v with
    | some r =>
      rw [hc] at h
      simp only [composeRun, hc]
      exact ih r w h
    | none => rw [hc] at h; exact Option.noConfusion h

/-- When the first `k` stages succeed, producing `u`, and stage `k`
fails, the loop of `compose.__call__` returns `nil` and records
`(u, failing-coercer)` in `scope`. -/
theorem composeRun_first_fail : ∀ (cs : List C) (v : V) (k : ℕ) (hk : k < cs.length) (u : V),
    foldChain (cs.take k) v = some u →
    applyC (cs.get ⟨k, hk⟩) u = none →
    composeRun cs v = (none, some (u, cs.get ⟨k, hk⟩)) := by
  intro cs
  induction cs with
  | nil => intro v k hk; exact absurd hk (by simp)
  | cons c cs ih =>
    intro v k hk u hpre hfail
    cases k with
    | zero =>
      cases Option.some.inj hpre
      simp only [List.get] at hfail
      simp [composeRun, hfail]
    | succ k =>
      rw [List.take_succ_cons, foldChain_cons] at hpre
      cases hc : applyC c v with
      | none => rw [hc] at hpre; exact Option.noConfusion hpre
      | some r =>
        rw [hc] at hpre
        simp only [composeRun, hc]
        exact ih r k (Nat.lt_of_succ_lt_succ hk) u hpre hfail

/-- Claim C1: for a `compose` composite built from coercers `f1 .. fn` (two or
more), the call applies them strictly in the order given, feeding each
result to the next (the left-to-right chain `foldChain`); if every
application succeeds the result of the last coercer is returned with `scope`
untouched; at the first failure — all stages before `k` succeeded with
value `u` and stage `k` fails on `u` — the call stops, records
`(u, failing-coercer)` in `scope`, and returns `nil`. -/
theorem claim_C1 (cs : List C) (_h2 : 2 ≤ cs.length) (v : V) :
    (composeRun cs v).1 = foldChain cs v ∧
    (∀ w, foldChain cs v = some w → composeRun cs v = (some w, none)) ∧
    (∀ (k : ℕ) (hk : k < cs.length) (u : V),
       foldChain (cs.take k) v = some u →
       applyC (cs.get ⟨k, hk⟩) u = none →
       composeRun cs v = (none, some (u, cs.get ⟨k, hk⟩))) :=
  ⟨composeRun_fst cs v, fun w => composeRun_success cs v w,
   fun k hk u => composeRun_first_fail cs v k hk u⟩

/-- Witness for C1 on the concrete two-stage composite
`compose(int_coerce, void_coerce)` applied to `"5"`: the first stage
produces `5`, the second fails on it, so the call returns `nil` with
`scope = (5, void_coerce)`. -/
theorem claim_C1_witness :
    composeRun [C.prim int_coerce, C.voidc] (V.vstr "5") =
      (none, some (V.vint 5, C.voidc)) :=
  (claim_C1 [C.prim int_coerce, C.voidc] (by decide) (V.vstr "5")).2.2 1 (by decide)
    (V.vint 5) (by decide) (by decide)

/-- Running a one-element composition is just calling that coercer. -/
theorem composeRun_single (c : C) (v : V) : (composeRun [c] v).1 = applyC c v := by
  cases h : applyC c v <;> simp [composeRun, h]

/-- The value of a composition run splits over list concatenation. -/
theorem composeRun_append : ∀ (l1 l2 : List C) (v : V),
    (composeRun (l1 ++ l2) v).1 =
      match (composeRun l1 v).1 with
      | some r => (composeRun l2 r).1
      | none => none := by
  intro l1
  induction l1 with
  | nil => intro l2 v; rfl
  | cons c l1 ih =>
    intro l2 v
    cases h : applyC c v with
    | some r =>
      simp only [List.cons_append, composeRun, h]
      exact ih l2 r
    | none => simp only [List.cons_append, composeRun, h]

mutual

/-- Construction-time flattening preserves the value of a composition
run, one element: running the flattening of a single coercer is calling
that coercer. -/
theorem composeRun_flatOne : (c : C) → (v : V) →
    (composeRun (flatComposeOne c) v).1 = applyC c v
  | C.prim f, v => composeRun_single (C.prim f) v
  | C.idc, v => composeRun_single C.idc v
  | C.voidc, v => composeRun_single C.voidc v
  | C.someC inner, v => composeRun_single (C.someC inner) v
  | C.composeC inner, v => by
    rw [show flatComposeOne (C.composeC inner) = flatComposeList inner from rfl,
        composeRun_flatList inner v]
    rfl

/-- Construction-time flattening preserves the value of a composition
run, over a list of coercers. -/
theorem composeRun_flatList : (cs : List C) → (v : V) →
    (composeRun (flatComposeList cs) v).1 = (composeRun cs v).1
  | [], _ => rfl
  | c :: rest, v => by
    rw [show flatComposeList (c :: rest) = flatComposeOne c ++ flatComposeList rest from rfl,
        composeRun_append, composeRun_flatOne c v]
    cases h : applyC c v with
    | some r => simp only [composeRun, h]; exact composeRun_flatList rest r
    | none => simp only [composeRun, h]

end

/-- Dropping the `identity_coerce` singleton preserves the value of a
composition run: identity stages do not change the chained value. -/
theorem composeRun_filter_id : ∀ (cs : List C) (v : V),
    (composeRun (cs.filter (fun c => ! C.isId c)) v).1 = (composeRun cs v).1 := by
  intro cs
  induction cs with
  | nil => intro v; rfl
  | cons c cs ih =>
    intro v
    cases hc : C.isId c with
    | true =>
      have hcid : c = C.idc := by cases c <;> simp [C.isId] at hc ⊢
      subst hcid
      simp only [List.filter, hc, Bool.not_true]
      rw [ih v]
      simp [composeRun, applyC]
    | false =>
      simp only [List.filter, hc, Bool.not_false]
      cases h : applyC c v with
      | some r => simp only [composeRun, h]; exact ih r
      | none => simp only [composeRun, h]

/-- The arity dispatch of `compose.__new__` builds a coercer whose call
is the composition run of the surviving list. -/
theorem applyC_mkCompose : ∀ (l : List C) (v : V),
    applyC (mkCompose l) v = (composeRun l v).1 := by
  intro l v
  match l with
  | [] => rfl
  | [c] => exact (composeRun_single c v).symm
  | c1 :: c2 :: rest => rfl

/-- Claim C3: `compose` constructed with zero surviving coercers (after
flattening and dropping `identity_coerce`) behaves as the identity on
every value; `some()` constructed with zero coercers returns `nil` for
every value; and `compose(A)` for any single coercer `A` — including
composite `A`s, which are unwrapped and rebuilt — behaves identically to
`A` alone. -/
theorem claim_C3 :
    (∀ cs : List C, (flatComposeList cs).filter (fun c => ! C.isId c) = [] →
       ∀ v, applyC (composeNew cs) v = some v) ∧
    (∀ v, applyC (someNew []) v = none) ∧
    (∀ (A : C) (v : V), applyC (composeNew [A]) v = applyC A v) := by
  refine ⟨?_, fun v => rfl, ?_⟩
  · intro cs h v
    rw [composeNew, h]
    rfl
  · intro A v
    rw [composeNew, applyC_mkCompose, composeRun_filter_id]
    rw [show flatComposeList [A] = flatComposeOne A ++ [] from rfl, List.append_nil]
    exact composeRun_flatOne A v

/-- Witness for C3: zero coercers give identity behaviour, `some()` gives
the void behaviour, and wrapping the concrete composite
`compose(int_coerce, void_coerce)` in another `compose` call leaves its
behaviour unchanged. -/
theorem claim_C3_witness :
    applyC (composeNew []) (V.vint 0) = some (V.vint 0) ∧
    applyC (someNew []) (V.vint 0) = none ∧
    applyC (composeNew [C.composeC [C.prim int_coerce, C.voidc]]) (V.vstr "7") =
      applyC (C.composeC [C.prim int_coerce, C.voidc]) (V.vstr "7") :=
  ⟨claim_C3.1 [] rfl (V.vint 0), claim_C3.2.1 (V.vint 0),
   claim_C3.2.2 (C.composeC [C.prim int_coerce, C.voidc]) (V.vstr "7")⟩

/-- The value computed by the lockstep loop of `combo.__call__` is the
spec-side zipWith traversal: coercer `i` applied to item `i`, truncated
to the shorter sequence, failing if any pair fails. -/
theorem comboLoop_fst : ∀ (cs : List (V → Option V)) (xs : List V),
    (comboLoop cs xs).1 = comboSpec cs xs := by
  intro cs
  induction cs with
  | nil => intro xs; rfl
  | cons c cs ih =>
    intro xs
    cases xs with
    | nil => rfl
    | cons x xs =>
      cases h : c x with
      | some v =>
        simp only [comboLoop, h, comboSpec, List.zipWith, List.foldr, Option.some_bind]
        rw [show (comboLoop cs xs).1 = comboSpec cs xs from ih xs]
        rfl
      | none => simp [comboLoop, h, comboSpec, List.zipWith, List.foldr]

/-- A successful spec-side traversal has exactly the truncated lockstep
length: the shorter of the coercer list and the input sequence. -/
theorem comboSpec_length : ∀ (cs : List (V → Option V)) (xs : List V) (l : List V),
    comboSpec cs xs = some l → l.length = min cs.length xs.length := by
  intro cs
  induction cs with
  | nil =>
    intro xs l h
    cases Option.some.inj h
    simp [comboSpec]
  | cons c cs ih =>
    intro xs l h
    cases xs with
    | nil =>
      cases Option.some.inj h
      simp [comboSpec]
    | cons x xs =>
      simp only [comboSpec, List.zipWith, List.foldr] at h
      cases hc : c x with
      | none => rw [hc] at h; exact Option.noConfusion h
      | some v =>
        rw [hc, Option.some_bind] at h
        obtain ⟨l', hl', rfl⟩ := Option.map_eq_some'.mp h
        have := ih xs l' hl'
        simp only [List.length_cons]
        omega

/-- When the first `k` lockstep pairs succeed and pair `k` fails, the
loop of `combo.__call__` returns `nil` and records the failing
`(item, coercer)` pair in `scope`. -/
theorem comboLoop_fail : ∀ (cs : List (V → Option V)) (xs : List V) (k : ℕ)
    (hk1 : k < cs.length) (hk2 : k < xs.length) (pl : List V),
    comboSpec (cs.take k) (xs.take k) = some pl →
    (cs.get ⟨k, hk1⟩) (xs.get ⟨k, hk2⟩) = none →
    comboLoop cs xs = (none, some (xs.get ⟨k, hk2⟩, cs.get ⟨k, hk1⟩)) := by
  intro cs
  induction cs with
  | nil => intro xs k hk1; exact absurd hk1 (by simp)
  | cons c cs ih =>
    intro xs k hk1 hk2 pl hpre hfail
    cases xs with
    | nil => exact absurd hk2 (by simp)
    | cons x xs =>
      cases k with
      | zero =>
        simp only [List.get] at hfail
        simp [comboLoop, hfail]
      | succ k =>
        rw [List.take_succ_cons, List.take_succ_cons] at hpre
        simp only [comboSpec, List.zipWith, List.foldr] at hpre
        cases hc : c x with
        | none => rw [hc] at hpre; exact Option.noConfusion hpre
        | some v =>
          rw [hc, Option.some_bind] at hpre
          obtain ⟨pl', hpl', -⟩ := Option.map_eq_some'.mp hpre
          simp only [comboLoop, hc]
          rw [ih xs k (Nat.lt_of_succ_lt_succ hk1) (Nat.lt_of_succ_lt_succ hk2) pl' hpl'
            hfail]
          rfl

/-- Claim C7: `combo` applies the i-th inner coercer to the `i`-th input
element in lockstep; a successful result is truncated to the length of
the shorter of the coercer list and the input; at the first pairwise
failure it returns `nil` and records the failing `(item, coercer)` pair
in `scope`; in particular `combo(int_coerce, float_coerce)` applied to
`("3", "4")` returns `(3, 4.0)`. -/
theorem claim_C7 :
    (∀ (cs : List (V → Option V)) (xs : List V), (comboLoop cs xs).1 = comboSpec cs xs) ∧
    (∀ (cs : List (V → Option V)) (xs : List V) (l : List V),
       comboSpec cs xs = some l → l.length = min cs.length xs.length) ∧
    (∀ (cs : List (V → Option V)) (xs : List V) (k : ℕ)
       (hk1 : k < cs.length) (hk2 : k < xs.length) (pl : List V),
       comboSpec (cs.take k) (xs.take k) = some pl →
       (cs.get ⟨k, hk1⟩) (xs.get ⟨k, hk2⟩) = none →
       comboLoop cs xs = (none, some (xs.get ⟨k, hk2⟩, cs.get ⟨k, hk1⟩))) ∧
    (combo_call [int_coerce, float_coerce] (V.vtup [V.vstr "3", V.vstr "4"])).1 =
      some (V.vtup [V.vint 3, V.vfloat 4]) :=
  ⟨comboLoop_fst, comboSpec_length, comboLoop_fail, by decide⟩

/-- Witness for C7 on a concrete failing pair: `combo(int_coerce,
float_coerce)` on `(1, "x")` fails at index 1 and records `("x",
float_coerce)`. -/
theorem claim_C7_witness :
    comboLoop [int_coerce, float_coerce] [V.vint 1, V.vstr "x"] =
      (none, some (V.vstr "x", float_coerce)) :=
  claim_C7.2.2.1 [int_coerce, float_coerce] [V.vint 1, V.vstr "x"] 1 (by decide)
    (by decide) [V.vint 1] (by decide) (by decide)

end XoutilCL
